import Mathlib

/-!
Verification of the expression/definition parser of the roc front end
(src/compiler/parse/src/expr.rs), as a shallow embedding in Lean 4.

The embedding keeps the names of the source functions where Lean allows it.
Machine integers (u16 rows and columns) are modelled as Nat, with wrapping
16-bit subtraction made explicit where the source relies on it.  The arena
allocation of the source is irrelevant to values and is dropped; references
become plain values.  Source spans are kept wherever a claim depends on
them (operator-chain state, error payloads) and erased inside AST nodes,
where no claim inspects them.
-/

set_option maxHeartbeats 1000000

namespace RocParse

/-- Progress flag of the three-valued parser result contract: marks whether a
parse attempt consumed input before failing. -/
inductive Progress where
  | madeProgress
  | noProgress
deriving DecidableEq, Repr

/-- Application style recorded on an Apply node.  The expression engine in
expr.rs only ever constructs CalledVia::Space (juxtaposition); the embedding
keeps just that constructor. -/
inductive CalledVia where
  | space
deriving DecidableEq, Repr

/-- Unary operators (roc_module::operator::UnaryOp). -/
inductive UnaryOp where
  | negate
  | not
deriving DecidableEq, Repr

/-- Binary operators (roc_module::operator::BinOp), exactly the constructors
produced by operator_help in expr.rs. -/
inductive BinOp where
  | plus
  | minus
  | star
  | slash
  | percent
  | caret
  | greaterThan
  | lessThan
  | assignment
  | hasType
  | pizza
  | equals
  | notEquals
  | greaterThanOrEq
  | lessThanOrEq
  | andOp
  | orOp
  | doubleSlash
  | doublePercent
  | backpassing
deriving DecidableEq, Repr

/-- Number base of a non-base-10 integer literal (external literal classifier). -/
inductive Base where
  | hex
  | octal
  | binary
deriving DecidableEq, Repr

/-- A unit of non-semantic blank space: a newline, a line comment or a doc
comment (crate::ast::CommentOrNewline). -/
inductive CommentOrNewline where
  | newline
  | lineComment (text : String)
  | docComment (text : String)
deriving DecidableEq, Repr

/-- Source region: start and end (line, column) pairs, both u16 in the source
(roc_region::all::Region). -/
structure Region where
  startLine : Nat
  startCol : Nat
  endLine : Nat
  endCol : Nat
deriving DecidableEq, Repr

instance : Inhabited Region := ⟨⟨0, 0, 0, 0⟩⟩

/-- Modelled from the spec: Region.span_across lives in the external
roc_region crate; per the spec (section 3) spans compose via the smallest
span covering both children, so the result starts where the earlier operand
starts and ends where the later operand ends.  Positions are ordered
lexicographically by line then column via pos_le. -/
def pos_le (line1 col1 line2 col2 : Nat) : Bool :=
  Nat.blt line1 line2 || (line1 == line2 && Nat.ble col1 col2)

/-- Smallest region covering both operands; see pos_le above. -/
def Region.span_across (a b : Region) : Region :=
  { startLine := if pos_le a.startLine a.startCol b.startLine b.startCol
                 then a.startLine else b.startLine
    startCol := if pos_le a.startLine a.startCol b.startLine b.startCol
                then a.startCol else b.startCol
    endLine := if pos_le a.endLine a.endCol b.endLine b.endCol
               then b.endLine else a.endLine
    endCol := if pos_le a.endLine a.endCol b.endLine b.endCol
              then b.endCol else a.endCol }

/-- Modelled from the spec: Region.across_all (external roc_region crate)
folds span_across over a sequence of regions, producing the smallest span
covering all of them. -/
def Region.across_all : List Region → Region
  | [] => default
  | r :: rs => rs.foldl Region.span_across r

/-- Placeholder for a parsed type tree.  The type-annotation grammar is an
external collaborator (spec section 1, OUT OF SCOPE); the parser only carries
the resulting TypeAnnotation value through, so a tagged string suffices. -/
inductive TypeAnn where
  | mk (text : String)
deriving DecidableEq, Repr

mutual

/-- Expression tree (crate::ast::Expr), with exactly the variants matched by
expr_to_pattern_help in expr.rs.  String, number and identifier payloads come
from the external lexers and are kept as strings; Located wrappers inside the
tree are erased (no claim inspects node-internal spans); the BadIdent payload
of MalformedIdent is kept as a string. -/
inductive Expr where
  | num (text : String)
  | float (text : String)
  | nonBase10Int (text : String) (base : Base) (is_negative : Bool)
  | str (text : String)
  | var (module_name : String) (ident : String)
  | globalTag (name : String)
  | privateTag (name : String)
  | accessorFunction (field : String)
  | access (rec : Expr) (field : String)
  | list (items : List Expr)
  | record (update : Option Expr) (fields : List AssignedField)
      (final_comments : List CommentOrNewline)
  | closure (params : List Pattern) (body : Expr)
  | apply (fn : Expr) (args : List Expr) (called_via : CalledVia)
  | binOp (lhs : Expr) (op : BinOp) (rhs : Expr)
  | unaryOp (operand : Expr) (op : UnaryOp)
  | ifExpr (branches : List (Expr × Expr)) (final_else : Expr)
  | whenExpr (cond : Expr) (branches : List WhenBranch)
  | defs (defs : List Def) (ret : Expr)
  | backpassing (patterns : List Pattern) (producer : Expr) (continuation : Expr)
  | spaceBefore (sub_expr : Expr) (spaces : List CommentOrNewline)
  | spaceAfter (sub_expr : Expr) (spaces : List CommentOrNewline)
  | parensAround (sub_expr : Expr)
  | nested (sub_expr : Expr)
  | malformedIdent (text : String) (problem : String)
  | malformedClosure
  | precedenceConflict (whole : Region) (op1 : BinOp) (op2 : BinOp) (sub_expr : Expr)

/-- Pattern tree (crate::ast::Pattern), the variants produced by the
expression-to-pattern reinterpretation and the record-destructure paths. -/
inductive Pattern where
  | identifier (ident : String)
  | qualifiedIdentifier (module_name : String) (ident : String)
  | globalTag (name : String)
  | privateTag (name : String)
  | apply (fn : Pattern) (args : List Pattern)
  | recordDestructure (fields : List Pattern)
  | requiredField (label : String) (pat : Pattern)
  | optionalField (label : String) (default_value : Expr)
  | numLiteral (text : String)
  | nonBase10Literal (text : String) (base : Base) (is_negative : Bool)
  | floatLiteral (text : String)
  | strLiteral (text : String)
  | malformed (text : String)
  | spaceBefore (pat : Pattern) (spaces : List CommentOrNewline)
  | spaceAfter (pat : Pattern) (spaces : List CommentOrNewline)

/-- A record field in a record literal (crate::ast::AssignedField,
specialized to expression values as in expr.rs). -/
inductive AssignedField where
  | requiredValue (label : String) (spaces : List CommentOrNewline) (value : Expr)
  | optionalValue (label : String) (spaces : List CommentOrNewline) (value : Expr)
  | labelOnly (label : String)
  | spaceBefore (field : AssignedField) (spaces : List CommentOrNewline)
  | spaceAfter (field : AssignedField) (spaces : List CommentOrNewline)
  | malformed (text : String)

/-- One branch of a when expression (crate::ast::WhenBranch). -/
inductive WhenBranch where
  | mk (patterns : List Pattern) (value : Expr) (guard : Option Expr)

/-- A definition (crate::ast::Def).  Def::Annotation is embedded as annDef
and Def::Alias as aliasDef; the other constructor names follow the source. -/
inductive Def where
  | annDef (pattern : Pattern) (ann_type : TypeAnn)
  | aliasDef (name : String) (vars : List Pattern) (ann : TypeAnn)
  | body (pattern : Pattern) (expr : Expr)
  | annotatedBody (ann_pattern : Pattern) (ann_type : TypeAnn)
      (comment : Option String) (body_pattern : Pattern) (body_expr : Expr)
  | spaceBefore (d : Def) (spaces : List CommentOrNewline)
  | spaceAfter (d : Def) (spaces : List CommentOrNewline)
  | notYetImplemented (text : String)

end

/-- A source-located expression: the Located wrapper of the source, kept at
the operator-chain level where error payloads need spans. -/
structure Loc where
  region : Region
  value : Expr

/-! ## Expression to pattern reinterpretation (expr.rs lines 1140 to 1328)

The source functions return Result of Pattern and the unit error; the
embedding uses Option Pattern, with none for Err.  The source iterates over
argument and field lists with for loops pushing into vectors; the embedding
uses mutually recursive list walkers. -/

mutual

/-- Converts an Expr that would parse the same way as a valid Pattern
(expr_to_pattern_help, expr.rs lines 1140 to 1231). -/
def expr_to_pattern_help : Expr → Option Pattern
  | .var module_name ident =>
    if module_name = "" then some (.identifier ident)
    else some (.qualifiedIdentifier module_name ident)
  | .globalTag value => some (.globalTag value)
  | .privateTag value => some (.privateTag value)
  | .apply loc_val loc_args _called_via => do
    let val_pattern ← expr_to_pattern_help loc_val
    let arg_patterns ← expr_list_to_patterns loc_args
    some (.apply val_pattern arg_patterns)
  | .spaceBefore sub_expr spaces => do
    some (.spaceBefore (← expr_to_pattern_help sub_expr) spaces)
  | .spaceAfter sub_expr spaces => do
    some (.spaceAfter (← expr_to_pattern_help sub_expr) spaces)
  | .parensAround sub_expr => expr_to_pattern_help sub_expr
  | .nested sub_expr => expr_to_pattern_help sub_expr
  | .record none fields _final_comments => do
    let loc_patterns ← assigned_field_list_to_patterns fields
    some (.recordDestructure loc_patterns)
  | .float text => some (.floatLiteral text)
  | .num text => some (.numLiteral text)
  | .nonBase10Int text base is_negative => some (.nonBase10Literal text base is_negative)
  -- These would not have parsed as patterns
  | .accessorFunction _ => none
  | .access _ _ => none
  | .list _ => none
  | .closure _ _ => none
  | .backpassing _ _ _ => none
  | .binOp _ _ _ => none
  | .defs _ _ => none
  | .ifExpr _ _ => none
  | .whenExpr _ _ => none
  | .malformedClosure => none
  | .precedenceConflict _ _ _ _ => none
  | .record (some _) _ _ => none
  | .unaryOp _ _ => none
  | .str text => some (.strLiteral text)
  | .malformedIdent text _problem => some (.malformed text)

/-- Walks an argument list, reinterpreting each element (the for loop in the
Apply arm of expr_to_pattern_help). -/
def expr_list_to_patterns : List Expr → Option (List Pattern)
  | [] => some []
  | e :: es => do
    let p ← expr_to_pattern_help e
    let ps ← expr_list_to_patterns es
    some (p :: ps)

/-- Walks a record field list, reinterpreting each field (the for loop in
the Record arm of expr_to_pattern_help). -/
def assigned_field_list_to_patterns : List AssignedField → Option (List Pattern)
  | [] => some []
  | f :: fs => do
    let p ← assigned_expr_field_to_pattern_help f
    let ps ← assigned_field_list_to_patterns fs
    some (p :: ps)

/-- Converts one record field of an expression record into a field pattern
(assigned_expr_field_to_pattern_help, expr.rs lines 1282 to 1328). -/
def assigned_expr_field_to_pattern_help : AssignedField → Option Pattern
  | .requiredValue name spaces value => do
    let pattern ← expr_to_pattern_help value
    if spaces.isEmpty then some (.requiredField name pattern)
    else some (.spaceAfter (.requiredField name pattern) spaces)
  | .optionalValue name spaces value =>
    if spaces.isEmpty then some (.optionalField name value)
    else some (.spaceAfter (.optionalField name value) spaces)
  | .labelOnly name => some (.identifier name)
  | .spaceBefore nested spaces => do
    some (.spaceBefore (← assigned_expr_field_to_pattern_help nested) spaces)
  | .spaceAfter nested spaces => do
    some (.spaceAfter (← assigned_expr_field_to_pattern_help nested) spaces)
  | .malformed text => some (.malformed text)

end

/-- Same conversion used by the record-destructure definition paths
(assigned_expr_field_to_pattern, expr.rs lines 1234 to 1280); the source
duplicates the body of assigned_expr_field_to_pattern_help verbatim, so the
embedding reuses it. -/
def assigned_expr_field_to_pattern : AssignedField → Option Pattern :=
  assigned_expr_field_to_pattern_help

/-- The list walkers are exactly monadic maps of the element conversions. -/
theorem expr_list_to_patterns_eq_mapM (es : List Expr) :
    expr_list_to_patterns es = es.mapM expr_to_pattern_help := by
  induction es with
  | nil => rfl
  | cons e es ih =>
    simp only [expr_list_to_patterns, List.mapM_cons, ih]
    rfl

/-- Field-list walker as a monadic map. -/
theorem assigned_field_list_to_patterns_eq_mapM (fs : List AssignedField) :
    assigned_field_list_to_patterns fs = fs.mapM assigned_expr_field_to_pattern_help := by
  induction fs with
  | nil => rfl
  | cons f fs ih =>
    simp only [assigned_field_list_to_patterns, List.mapM_cons, ih]
    rfl

/-! ## Operator-chain engine (expr.rs lines 438 to 1128)

The engine is a state machine over a running left-hand expression, an
accumulated argument list and an accumulated operator stack.  The embedding
abstracts the byte-level term and operator parsers into a trace: a list of
chain items, where a term item records a successful juxtaposed-term parse
(skip_first of check_indent and parse_loc_term_better, line 1048) and an
operator item records a successful operator() parse together with the two
whitespace facts the source reads off positions (line 784): gapBefore is
the source condition that the end of the previous token differs from the
operator start, gapAfter that the operator end differs from the start of
the following token.  The spaces_after, initial and end fields of the
source ExprState carry comment payloads and the positions replaced by the
gap flags, and are omitted; space payloads wrap nodes in SpaceBefore and
SpaceAfter and no claim involves comments inside a chain. -/

/-- Errors of the expression context (crate::parser::EExpr), restricted to
the constructors the embedded paths can produce.  Line and column payloads
are kept only where a claim inspects them. -/
inductive EExpr where
  | badOperator (op : String)
  | elmStyleFunction (region : Region)
  | start
  | todoUnreachable
deriving DecidableEq, Repr

/-- State of the operator-chain engine (struct ExprState, expr.rs line 465):
operator stack of (left operand, operator) pairs, accumulated juxtaposed
arguments, and the running expression. -/
structure ExprState where
  operators : List (Loc × BinOp)
  arguments : List Loc
  expr : Loc

/-- Folds the accumulated arguments into a single Apply node (to_call,
expr.rs lines 520 to 540); with no arguments the expression passes through
unchanged. -/
def to_call (arguments : List Loc) (loc_expr1 : Loc) : Loc :=
  match arguments with
  | [] => loc_expr1
  | _ =>
    let last := ((arguments.getLast?).map Loc.region).getD default
    let region := Region.span_across loc_expr1.region last
    { region
      value := .apply loc_expr1.value (arguments.map Loc.value) .space }

/-- Terminates the chain: folds the arguments into a call, then right-folds
the operator stack into a binary tree, last pushed pair innermost
(parse_expr_final, expr.rs lines 498 to 518; the identical fold also ends
the NoProgress arm of parse_expr_end, lines 1108 to 1123). -/
def parse_expr_final (expr_state : ExprState) : Loc :=
  let expr := to_call expr_state.arguments expr_state.expr
  expr_state.operators.reverse.foldl
    (fun e p =>
      { region := Region.span_across p.1.region e.region
        value := .binOp p.1.value p.2 e.value })
    expr

/-- Folds a minus into the following term (numeric_negate_expression,
expr.rs lines 542 to 596).  The source rebuilds the literal text from the
raw bytes starting at the minus sign; with no gap after the minus (the
precondition of the caller) that text is the minus sign prepended to the
literal text.  The start column of the region moves one column left onto
the minus.  The spaces parameter of the source only wraps the result in a
comment payload and is omitted. -/
def numeric_negate_expression (expr : Loc) : Loc :=
  let region := { expr.region with startCol := expr.region.startCol - 1 }
  let new_expr : Expr :=
    match expr.value with
    | .num text => .num ("-" ++ text)
    | .float text => .float ("-" ++ text)
    | .nonBase10Int text base is_negative => .nonBase10Int ("-" ++ text) base (!is_negative)
    | other => .unaryOp other .negate
  { region, value := new_expr }

/-- One abstract event of the operator-chain loop: either a juxtaposed term
parsed successfully, or an infix operator token with its whitespace facts. -/
inductive ChainItem where
  | term (t : Loc)
  | op (b : BinOp) (gapBefore : Bool) (gapAfter : Bool)

/-- Result of running the chain: a plain expression, or a hand-off to the
definition machinery after an accepted equals or colon.  The definition and
type parsing that follows (parse_def_expr_help, parse_defs_end,
type_annotation) is outside the chain engine; the hand-off records the
pattern the left-hand side reinterpreted to and the unconsumed trace. -/
inductive ChainResult where
  | expr (e : Loc)
  | defStart (pattern : Pattern) (rest : List ChainItem)
  | annStart (pattern : Pattern) (rest : List ChainItem)
  | aliasStart (name : String) (vars : List Pattern) (rest : List ChainItem)

mutual

/-- The chain loop (parse_expr_end, expr.rs lines 1042 to 1128): a further
term becomes an argument; otherwise an operator is tried; if neither parses
the chain terminates via the parse_expr_final fold. -/
def parse_expr_end (expr_state : ExprState) :
    List ChainItem → Except EExpr ChainResult
  | [] => .ok (.expr (parse_expr_final expr_state))
  | .term arg :: rest =>
    parse_expr_end
      { expr_state with arguments := expr_state.arguments ++ [arg] } rest
  | .op b gapBefore gapAfter :: rest =>
    parse_expr_operator expr_state b gapBefore gapAfter rest

/-- Dispatch on a parsed operator (parse_expr_operator, expr.rs lines 767
to 1040).  A minus preceded by a gap and followed by none negates the
following term into a new argument; equals and colon switch into
definition parsing after reinterpreting the left side as a pattern; every
other operator folds the arguments into a call, pushes it with the
operator, and the following term restarts the loop. -/
def parse_expr_operator (expr_state : ExprState) (b : BinOp)
    (gapBefore gapAfter : Bool) (rest : List ChainItem) :
    Except EExpr ChainResult :=
  if b = .minus ∧ gapBefore ∧ ¬gapAfter then
    -- negative terms (lines 784 to 811)
    match rest with
    | .term negated_expr :: rest2 =>
      let arg := numeric_negate_expression negated_expr
      parse_expr_end
        { expr_state with arguments := expr_state.arguments ++ [arg] } rest2
    | _ => .error .start
  else
    match b with
    | .assignment =>
      -- lines 812 to 889
      if ¬expr_state.operators.isEmpty then
        -- this equals likely occured inline; treat it as an invalid operator
        .error (.badOperator "=")
      else if ¬expr_state.arguments.isEmpty then
        let region := Region.across_all (expr_state.arguments.map Loc.region)
        .error (.elmStyleFunction region)
      else
        let call := to_call expr_state.arguments expr_state.expr
        match expr_to_pattern_help call.value with
        | some good => .ok (.defStart good rest)
        | none => .error (.badOperator "=")
    | .hasType =>
      -- lines 890 to 993
      match expr_state.expr.value with
      | .globalTag name =>
        -- a colon after a global tag begins a type alias; each argument is
        -- reinterpreted as a type variable pattern (source panics on failure)
        match expr_list_to_patterns (expr_state.arguments.map Loc.value) with
        | some type_arguments => .ok (.aliasStart name type_arguments rest)
        | none => .error .todoUnreachable
      | _ =>
        let call := to_call expr_state.arguments expr_state.expr
        match expr_to_pattern_help call.value with
        | some good => .ok (.annStart good rest)
        | none => .error (.badOperator ":")
    | _ =>
      -- ordinary infix operator (lines 994 to 1038): parse a new term,
      -- fold the arguments into a call, push (call, operator)
      match rest with
      | .term new_expr :: rest2 =>
        let call := to_call expr_state.arguments expr_state.expr
        parse_expr_end
          { operators := expr_state.operators ++ [(call, b)]
            arguments := []
            expr := new_expr } rest2
      | _ => .error .todoUnreachable

end

/-- Entry point of the chain (parse_expr_operator_chain, expr.rs lines 438
to 463): the leading term seeds the state with empty operator and argument
stacks. -/
def parse_expr_operator_chain (first : Loc) (items : List ChainItem) :
    Except EExpr ChainResult :=
  parse_expr_end { operators := [], arguments := [], expr := first } items

/-- Projects the expression value out of a completed chain run. -/
def chain_result_value : Except EExpr ChainResult → Option Expr
  | .ok (.expr e) => some e.value
  | _ => none

/-! ## Definition appending and merging (expr.rs lines 598 to 654) -/

/-- The comment extraction inlined in append_body_definition (lines 617 to
621): the first space element, when it is a comment, is captured. -/
def comment_from_spaces : List CommentOrNewline → Option String
  | .lineComment s :: _ => some s
  | .docComment s :: _ => some s
  | _ => none

/-- Wraps a new body definition in its leading spaces and appends it (the
common tail of append_body_definition, lines 641 to 653). -/
def push_body_definition (defs : List Def) (spaces : List CommentOrNewline)
    (loc_pattern : Pattern) (loc_def_body : Expr) : List Def :=
  let loc_def := Def.body loc_pattern loc_def_body
  let loc_def := if spaces.isEmpty then loc_def else .spaceBefore loc_def spaces
  defs ++ [loc_def]

/-- Appends a body definition to a definition list, merging it with an
immediately preceding bare annotation into an annotated body when the
separating space list has at most one element (append_body_definition,
expr.rs lines 598 to 654).  The source pops the last definition and pushes
it back when no merge applies; the embedding reads it with getLast? and
dropLast.  Regions are erased as elsewhere in the AST. -/
def append_body_definition (defs : List Def) (spaces : List CommentOrNewline)
    (loc_pattern : Pattern) (loc_def_body : Expr) : List Def :=
  if spaces.length ≤ 1 then
    match defs.getLast? with
    | some (.annDef ann_pattern ann_type) =>
      let comment := comment_from_spaces spaces
      defs.dropLast ++
        [Def.annotatedBody ann_pattern ann_type comment loc_pattern loc_def_body]
    | _ =>
      -- the previous and current def cannot be joined up
      push_body_definition defs spaces loc_pattern loc_def_body
  else
    push_body_definition defs spaces loc_pattern loc_def_body

/-! ## When-branch alignment (expr.rs lines 1952 to 2094)

The alignment check only reads the start column of each located pattern;
the embedding takes those columns directly.  Columns are u16 in the source
and the check subtracts them without a guard, so the embedding makes the
16-bit wrapping subtraction explicit. -/

/-- Wrapping 16-bit subtraction of natural numbers below 2 to the 16. -/
def sub16 (a b : Nat) : Nat := (a + 65536 - b) % 65536

/-- Checks that the alternatives of a non-first when branch are indented
correctly against the column established by the first branch
(alternatives_indented_correctly, expr.rs lines 2077 to 2094): the first
pattern must sit exactly at the reference column and every further
alternative at or right of it; on failure the check reports the wrapping
difference between the reference column and the offending column.  The
source takes a nonempty pattern list and splits off its head; the embedding
takes head and tail separately. -/
def alternatives_indented_correctly (first : Nat) (rest : List Nat)
    (original_indent : Nat) : Except Nat Unit :=
  if first = original_indent then
    match rest.find? (fun col => col < original_indent) with
    | some col => .error (sub16 original_indent col)
    | none => .ok ()
  else
    .error (sub16 original_indent first)

/-- Checks every non-first branch of a when expression against the
reference column (the branch loop of branches, expr.rs lines 1976 to 2019,
restricted to the alignment aspect; each branch is its first-pattern column
with the columns of its further alternatives). -/
def check_rest_branches (original_indent : Nat) :
    List (Nat × List Nat) → Except Nat Unit
  | [] => .ok ()
  | (first, rest) :: branches =>
    match alternatives_indented_correctly first rest original_indent with
    | .error delta => .error delta
    | .ok () => check_rest_branches original_indent branches

/-- The first branch of a when establishes the reference column with its
first pattern; only subsequent branches are checked (branches, expr.rs
lines 1952 to 2023: original_indent is the start column of the first
pattern of the first branch, line 1962). -/
def branches_alignment (first_branch : Nat × List Nat)
    (rest_branches : List (Nat × List Nat)) : Except Nat Unit :=
  check_rest_branches first_branch.1 rest_branches

/-! ## If expressions (expr.rs lines 2112 to 2197)

The claims about if concern branch chaining, not the inner expression
grammar, so the embedding abstracts condition and branch expressions into
single tokens: an expression token stands for a successful recursive
parse_expr_help parse, and keyword tokens for the keyword parsers.  Every
failure inside if_branch is converted to a made-progress (hard) failure by
the source (map_err at lines 2127 to 2147), which the embedding mirrors in
the Progress component of the error. -/

/-- Abstract token stream for the if grammar. -/
inductive IfTok where
  | kwIf
  | kwThen
  | kwElse
  | exprTok (e : Expr)

/-- Errors of the if context (crate::parser::If, restricted to the embedded
paths). -/
inductive IfError where
  | ifToken
  | condFail
  | thenToken
  | thenBranchFail
  | elseToken
  | elseBranchFail
deriving DecidableEq, Repr

/-- Parses one condition-then-branch pair followed by the mandatory else
keyword (if_branch, expr.rs lines 2112 to 2151); each missing piece is a
hard error. -/
def if_branch : List IfTok →
    Except (Progress × IfError) ((Expr × Expr) × List IfTok)
  | .exprTok cond :: .kwThen :: .exprTok then_branch :: .kwElse :: rest =>
    .ok ((cond, then_branch), rest)
  | .exprTok _ :: .kwThen :: .exprTok _ :: _ => .error (.madeProgress, .elseToken)
  | .exprTok _ :: .kwThen :: _ => .error (.madeProgress, .thenBranchFail)
  | .exprTok _ :: _ => .error (.madeProgress, .thenToken)
  | _ => .error (.madeProgress, .condFail)

/-- A successful if_branch consumes four tokens. -/
theorem if_branch_shrinks (toks : List IfTok) (p : Expr × Expr)
    (rest : List IfTok) (h : if_branch toks = .ok (p, rest)) :
    rest.length + 4 = toks.length := by
  match toks, h with
  | .exprTok cond :: .kwThen :: .exprTok then_branch :: .kwElse :: rest2, hh =>
    simp only [if_branch, Except.ok.injEq, Prod.mk.injEq] at hh
    simp [← hh.2]

/-- The branch loop of if_expr_help (expr.rs lines 2157 to 2180): after
each branch the parser speculatively probes for a following if keyword
(backtrackable spaces and keyword, lines 2168 to 2171); otherwise the final
else branch is one more expression. -/
def if_expr_loop (branches : List (Expr × Expr)) (toks : List IfTok) :
    Except (Progress × IfError) (Expr × List IfTok) :=
  match h : if_branch toks with
  | .error e => .error e
  | .ok ((cond, then_branch), rest) =>
    match rest with
    | .kwIf :: rest2 => if_expr_loop (branches ++ [(cond, then_branch)]) rest2
    | _ =>
      match rest with
      | .exprTok else_branch :: rest3 =>
        .ok (.ifExpr (branches ++ [(cond, then_branch)]) else_branch, rest3)
      | _ => .error (.madeProgress, .elseBranchFail)
termination_by toks.length
decreasing_by
  have h4 := if_branch_shrinks toks (cond, then_branch) (IfTok.kwIf :: rest2) h
  simp only [List.length_cons] at h4
  omega

/-- Parses a full if expression (if_expr_help, expr.rs lines 2153 to 2197):
the leading if keyword, then the branch loop, requiring a terminal else
branch. -/
def if_expr_help : List IfTok → Except (Progress × IfError) (Expr × List IfTok)
  | .kwIf :: rest => if_expr_loop [] rest
  | _ => .error (.noProgress, .ifToken)

/-! ## Operator token recognition (expr.rs lines 2850 to 2945)

Here the embedding descends to the byte level, since the claims concern
exactly which byte sequences are consumed.  Input bytes are modelled as
characters (the source slices are ASCII) and the parser state as the
remaining input with the line, column and indentation-column counters of
crate::parser::State. -/

/-- Parser state (crate::parser::State, the fields expr.rs reads):
remaining input, current line and column, indentation column. -/
structure PState where
  bytes : List Char
  line : Nat
  column : Nat
  indentCol : Nat
deriving DecidableEq, Repr

/-- The characters an operator token may consist of (BINOP_CHAR_SET,
expr.rs line 2850). -/
def BINOP_CHAR_SET : List Char :=
  ['+', '-', '/', '*', '=', '.', '<', '>', ':', '&', '|', '^', '?', '%', '!']

/-- Length of the longest prefix of operator characters (chomp_ops,
expr.rs lines 2934 to 2945). -/
def chomp_ops : List Char → Nat
  | [] => 0
  | c :: rest => if BINOP_CHAR_SET.contains c then chomp_ops rest + 1 else 0

/-- Errors of the operator recognizer: the to_expectation and to_error
callbacks of operator_help, carrying the position and, for to_error, the
offending slice. -/
inductive OpError where
  | expectation (line col : Nat)
  | badOp (op : List Char) (line col : Nat)
deriving DecidableEq, Repr

/-- Advances the state over an accepted operator of the given width (the
good macro of operator_help). -/
def op_advance (state : PState) (width : Nat) : PState :=
  { state with column := state.column + width, bytes := state.bytes.drop width }

/-- Recognizes one infix operator token (operator_help, expr.rs lines 2859
to 2932): the maximal run of operator characters is measured first; runs of
length one and two map to operators, except that a lone dot and an arrow
deliberately fail with no progress so the following parser can consume
them; any other run is a made-progress bad-operator failure. -/
def operator_help (state : PState) :
    Except (Progress × OpError × PState) (BinOp × PState) :=
  let chomped := chomp_ops state.bytes
  if chomped = 0 then
    .error (.noProgress, .expectation state.line state.column, state)
  else if chomped = 1 then
    match state.bytes with
    | '+' :: _ => .ok (.plus, op_advance state 1)
    | '-' :: _ => .ok (.minus, op_advance state 1)
    | '*' :: _ => .ok (.star, op_advance state 1)
    | '/' :: _ => .ok (.slash, op_advance state 1)
    | '%' :: _ => .ok (.percent, op_advance state 1)
    | '^' :: _ => .ok (.caret, op_advance state 1)
    | '>' :: _ => .ok (.greaterThan, op_advance state 1)
    | '<' :: _ => .ok (.lessThan, op_advance state 1)
    | '.' :: _ =>
      -- a dot makes no progress, so it does not interfere with field access
      .error (.noProgress, .badOp ['.'] state.line state.column, state)
    | '=' :: _ => .ok (.assignment, op_advance state 1)
    | ':' :: _ => .ok (.hasType, op_advance state 1)
    | c :: _ => .error (.madeProgress, .badOp [c] state.line state.column, state)
    | [] => .error (.madeProgress, .badOp [] state.line state.column, state)
  else if chomped = 2 then
    match state.bytes with
    | '|' :: '>' :: _ => .ok (.pizza, op_advance state 2)
    | '=' :: '=' :: _ => .ok (.equals, op_advance state 2)
    | '!' :: '=' :: _ => .ok (.notEquals, op_advance state 2)
    | '>' :: '=' :: _ => .ok (.greaterThanOrEq, op_advance state 2)
    | '<' :: '=' :: _ => .ok (.lessThanOrEq, op_advance state 2)
    | '&' :: '&' :: _ => .ok (.andOp, op_advance state 2)
    | '|' :: '|' :: _ => .ok (.orOp, op_advance state 2)
    | '/' :: '/' :: _ => .ok (.doubleSlash, op_advance state 2)
    | '%' :: '%' :: _ => .ok (.doublePercent, op_advance state 2)
    | '-' :: '>' :: _ =>
      -- makes no progress, so it does not interfere with when-branch arrows
      .error (.noProgress, .badOp ['-', '>'] state.line state.column, state)
    | '<' :: '-' :: _ => .ok (.backpassing, op_advance state 2)
    | c0 :: c1 :: _ =>
      .error (.madeProgress, .badOp [c0, c1] state.line state.column, state)
    | _ =>
      .error (.madeProgress, .badOp (state.bytes.take 2) state.line state.column, state)
  else
    .error (.madeProgress, .badOp (state.bytes.take chomped) state.line state.column, state)

/-! ## Equals and colon recognizers (expr.rs lines 2451 to 2487) -/

/-- Errors of the definition-introducer recognizers (crate::parser::EExpr
constructors Equals, DoubleColon and Colon, with their positions). -/
inductive EqColonError where
  | equalsErr (line col : Nat)
  | doubleColon (line col : Nat)
  | colonErr (line col : Nat)
deriving DecidableEq, Repr

/-- Modelled from the spec: State::advance_without_indenting_e lives in the
external parser module; it advances the column over already-inspected
non-newline bytes, leaving line and indentation column unchanged.  (The
source can also fail there when the column exceeds the u16 maximum, which
no claim exercises.) -/
def advance_without_indenting (width : Nat) (state : PState) : PState :=
  { state with bytes := state.bytes.drop width, column := state.column + width }

/-- Recognizes the equals sign that begins a definition
(equals_with_indent_help, expr.rs lines 2451 to 2466): succeeds, returning
the indentation column, only on an equals sign not followed by a second
one; otherwise fails with no progress and an unchanged state. -/
def equals_with_indent_help (state : PState) :
    Except (Progress × EqColonError × PState) (Nat × PState) :=
  let indent_col := state.indentCol
  let good := state.bytes.head? = some '=' ∧ ¬state.bytes.take 2 = ['=', '=']
  if good then
    .ok (indent_col, advance_without_indenting 1 state)
  else
    .error (.noProgress, .equalsErr state.line state.column, state)

/-- Recognizes the colon that begins a type annotation (colon_with_indent,
expr.rs lines 2468 to 2487): a double colon fails with a dedicated
no-progress error; a single colon succeeds with the indentation column. -/
def colon_with_indent (state : PState) :
    Except (Progress × EqColonError × PState) (Nat × PState) :=
  match state.bytes with
  | ':' :: tail =>
    match tail with
    | ':' :: _ => .error (.noProgress, .doubleColon state.line state.column, state)
    | _ => .ok (state.indentCol, advance_without_indenting 1 state)
  | _ => .error (.noProgress, .colonErr state.line state.column, state)

/-! ## Record destructure definitions (expr.rs lines 2721 to 2766)

When a record literal is followed by an equals sign, record_literal_help
reinterprets each assigned field as a pattern and builds a record
destructure that heads the definition; the subsequent body parsing
(parse_def_expr_help, lines 1595 to 1665) places that pattern on the first
body definition of the resulting definitions block. -/

/-- Builds the record-destructure pattern of a record followed by equals
(the field loop and pattern construction of record_literal_help, lines 2725
to 2748); a field with no pattern equivalent aborts with a
malformed-pattern failure, embedded as none. -/
def record_destructure_def_pattern (assigned_fields : List AssignedField)
    (spaces_before_equals : List CommentOrNewline) : Option Pattern := do
  let loc_patterns ← assigned_fields.mapM assigned_expr_field_to_pattern
  let pattern := Pattern.recordDestructure loc_patterns
  if spaces_before_equals.isEmpty then some pattern
  else some (.spaceAfter pattern spaces_before_equals)

/-- Shape of the definitions block produced by parse_def_expr_help (lines
1631 to 1661): the destructure pattern and first body become the first
definition, before any further definitions, around the final returned
expression. -/
def parse_def_expr_result (loc_first_pattern : Pattern) (loc_first_body : Expr)
    (defs : List Def) (loc_ret : Expr) : Expr :=
  .defs (Def.body loc_first_pattern loc_first_body :: defs) loc_ret

/-! ## Chain folding helpers for the right-fold claim -/

/-- Trace of a terminated operator chain: after the leading term, each
operator (with whitespace on both sides) is followed by its right operand
term. -/
def chain_items : List (BinOp × Loc) → List ChainItem
  | [] => []
  | (op, t) :: rest => .op op true true :: .term t :: chain_items rest

/-- Follows the words of the spec (section 4.3): the terminated chain is
the right-nested tree built strictly in encounter order, the terminal term
binding tightest.  Stated over region-erased expressions; compared against
the engine below. -/
def spec_right_fold (t0 : Expr) : List (BinOp × Expr) → Expr
  | [] => t0
  | (op, t) :: rest => .binOp t0 op (spec_right_fold t rest)

/-! ## Claim theorems -/

/-- C3: Expression-to-pattern reinterpretation maps a bare variable to an
identifier pattern, a tag application to a tag pattern with recursively
reinterpreted arguments, a record literal without an update base to a
record destructure whose label-only fields become bound identifiers, and
parenthesized and space-wrapped wrappers pass through to their inner
value; it fails for binary-operator nodes, if, when, record update,
lambda, field access and unary-operator nodes. -/
theorem expr_to_pattern_reinterpretation :
    (∀ ident, expr_to_pattern_help (.var "" ident) = some (.identifier ident))
  ∧ (∀ name args called_via,
      expr_to_pattern_help (.apply (.globalTag name) args called_via)
        = (args.mapM expr_to_pattern_help).map
            (fun arg_patterns => .apply (.globalTag name) arg_patterns))
  ∧ (∀ fields final_comments,
      expr_to_pattern_help (.record none fields final_comments)
        = (fields.mapM assigned_expr_field_to_pattern_help).map .recordDestructure)
  ∧ (∀ label, assigned_expr_field_to_pattern_help (.labelOnly label)
      = some (.identifier label))
  ∧ (∀ e, expr_to_pattern_help (.parensAround e) = expr_to_pattern_help e)
  ∧ (∀ e, expr_to_pattern_help (.nested e) = expr_to_pattern_help e)
  ∧ (∀ e spaces, expr_to_pattern_help (.spaceBefore e spaces)
      = (expr_to_pattern_help e).map (fun p => .spaceBefore p spaces))
  ∧ (∀ e spaces, expr_to_pattern_help (.spaceAfter e spaces)
      = (expr_to_pattern_help e).map (fun p => .spaceAfter p spaces))
  ∧ (∀ lhs op rhs, expr_to_pattern_help (.binOp lhs op rhs) = none)
  ∧ (∀ branches final_else, expr_to_pattern_help (.ifExpr branches final_else) = none)
  ∧ (∀ cond branches, expr_to_pattern_help (.whenExpr cond branches) = none)
  ∧ (∀ update fields final_comments,
      expr_to_pattern_help (.record (some update) fields final_comments) = none)
  ∧ (∀ params body, expr_to_pattern_help (.closure params body) = none)
  ∧ (∀ e field, expr_to_pattern_help (.access e field) = none)
  ∧ (∀ e op, expr_to_pattern_help (.unaryOp e op) = none) := by
  refine ⟨?_, ?_, ?_, ?_, ?_, ?_, ?_, ?_, ?_, ?_, ?_, ?_, ?_, ?_, ?_⟩
  · intro ident
    simp [expr_to_pattern_help]
  · intro name args called_via
    rw [expr_to_pattern_help, ← expr_list_to_patterns_eq_mapM]
    simp [expr_to_pattern_help]
    cases expr_list_to_patterns args <;> rfl
  · intro fields final_comments
    rw [expr_to_pattern_help, ← assigned_field_list_to_patterns_eq_mapM]
    cases assigned_field_list_to_patterns fields <;> rfl
  · intro label
    rw [assigned_expr_field_to_pattern_help]
  · intro e
    rw [expr_to_pattern_help]
  · intro e
    rw [expr_to_pattern_help]
  · intro e spaces
    rw [expr_to_pattern_help]
    cases expr_to_pattern_help e <;> rfl
  · intro e spaces
    rw [expr_to_pattern_help]
    cases expr_to_pattern_help e <;> rfl
  · intro lhs op rhs
    rw [expr_to_pattern_help]
  · intro branches final_else
    rw [expr_to_pattern_help]
  · intro cond branches
    rw [expr_to_pattern_help]
  · intro update fields final_comments
    rw [expr_to_pattern_help]
  · intro params body
    rw [expr_to_pattern_help]
  · intro e field
    rw [expr_to_pattern_help]
  · intro e op
    rw [expr_to_pattern_help]

/-- C4: a minus at infix position that is preceded by a gap and followed by
none is folded into the following numeric literal (x space minus 1 applies
x to the literal minus 1); with a gap on both sides, or none on either
side, it parses as binary subtraction. -/
theorem minus_gap_disambiguation (rx rn : Region) (x : Expr) (n : String) :
    chain_result_value (parse_expr_operator_chain ⟨rx, x⟩
        [.op .minus true false, .term ⟨rn, .num n⟩])
      = some (.apply x [.num ("-" ++ n)] .space)
  ∧ chain_result_value (parse_expr_operator_chain ⟨rx, x⟩
        [.op .minus true true, .term ⟨rn, .num n⟩])
      = some (.binOp x .minus (.num n))
  ∧ chain_result_value (parse_expr_operator_chain ⟨rx, x⟩
        [.op .minus false false, .term ⟨rn, .num n⟩])
      = some (.binOp x .minus (.num n)) := by
  refine ⟨?_, ?_, ?_⟩ <;>
    simp [parse_expr_operator_chain, parse_expr_end, parse_expr_operator,
      numeric_negate_expression, to_call, parse_expr_final, chain_result_value]

/-- C7: an if expression without a terminal else branch is a hard
(made-progress) parse error, and a chain of two conditions with a final
else parses as a single conditional node with the branch list in order and
the final else branch. -/
theorem if_requires_else_and_flattens (c1 a c2 b els : Expr) :
    if_expr_help [.kwIf, .exprTok c1, .kwThen, .exprTok a]
      = .error (.madeProgress, .elseToken)
  ∧ if_expr_help
      [.kwIf, .exprTok c1, .kwThen, .exprTok a, .kwElse,
       .kwIf, .exprTok c2, .kwThen, .exprTok b, .kwElse, .exprTok els]
      = .ok (.ifExpr [(c1, a), (c2, b)] els, []) := by
  constructor
  · rw [if_expr_help, if_expr_loop]
    rfl
  · rw [if_expr_help, if_expr_loop]
    simp only [if_branch]
    rw [if_expr_loop]
    rfl

/-- Helper: a list whose head is not an operator character chomps to
nothing. -/
theorem chomp_ops_eq_zero (l : List Char)
    (h : ∀ c, l.head? = some c → c ∉ BINOP_CHAR_SET) : chomp_ops l = 0 := by
  cases l with
  | nil => rfl
  | cons c rest =>
    have hc := h c rfl
    simp [chomp_ops, hc]

/-- C9: when the remaining bytes begin with an arrow followed by no further
operator character, or with a lone dot, the infix-operator recognizer
fails with a no-progress result and the unchanged state, leaving the arrow
and the dot for the following parser. -/
theorem arrow_and_dot_not_binops (state : PState) :
    (∀ rest, state.bytes = '-' :: '>' :: rest →
      (∀ c, rest.head? = some c → c ∉ BINOP_CHAR_SET) →
      operator_help state
        = .error (.noProgress, .badOp ['-', '>'] state.line state.column, state))
  ∧ (∀ rest, state.bytes = '.' :: rest →
      (∀ c, rest.head? = some c → c ∉ BINOP_CHAR_SET) →
      operator_help state
        = .error (.noProgress, .badOp ['.'] state.line state.column, state)) := by
  constructor
  · intro rest hbytes hrest
    have hc0 : chomp_ops rest = 0 := chomp_ops_eq_zero rest hrest
    have hch : chomp_ops ('-' :: '>' :: rest) = 2 := by
      simp [chomp_ops, hc0]
      decide
    obtain ⟨bytes, line, column, indentCol⟩ := state
    simp only at hbytes
    subst hbytes
    delta operator_help
    rw [show chomp_ops ('-' :: '>' :: rest) = 2 from hch]
    rfl
  · intro rest hbytes hrest
    have hc0 : chomp_ops rest = 0 := chomp_ops_eq_zero rest hrest
    have hch : chomp_ops ('.' :: rest) = 1 := by
      simp [chomp_ops, hc0]
      decide
    obtain ⟨bytes, line, column, indentCol⟩ := state
    simp only at hbytes
    subst hbytes
    delta operator_help
    rw [show chomp_ops ('.' :: rest) = 1 from hch]
    rfl

/-- Witness for C9 at a concrete state: arrow then a space, and a lone dot
then a space. -/
theorem arrow_and_dot_not_binops_witness :
    operator_help ⟨['-', '>', ' '], 3, 7, 1⟩
      = .error (.noProgress, .badOp ['-', '>'] 3 7, ⟨['-', '>', ' '], 3, 7, 1⟩)
  ∧ operator_help ⟨['.', ' '], 3, 7, 1⟩
      = .error (.noProgress, .badOp ['.'] 3 7, ⟨['.', ' '], 3, 7, 1⟩) :=
  ⟨(arrow_and_dot_not_binops ⟨['-', '>', ' '], 3, 7, 1⟩).1 [' '] rfl (by decide),
   (arrow_and_dot_not_binops ⟨['.', ' '], 3, 7, 1⟩).2 [' '] rfl (by decide)⟩

/-- C10: the equals recognizer succeeds only on an equals sign not followed
by a second one, rejecting with no progress and an unchanged state
otherwise; the colon recognizer rejects a double colon with a no-progress
double-colon error and an unchanged state. -/
theorem equals_colon_rejections (state : PState) :
    (∀ rest, state.bytes = '=' :: '=' :: rest →
      equals_with_indent_help state
        = .error (.noProgress, .equalsErr state.line state.column, state))
  ∧ (state.bytes.head? ≠ some '=' →
      equals_with_indent_help state
        = .error (.noProgress, .equalsErr state.line state.column, state))
  ∧ (∀ result, equals_with_indent_help state = .ok result →
      state.bytes.head? = some '=' ∧ state.bytes.take 2 ≠ ['=', '='])
  ∧ (∀ rest, state.bytes = ':' :: ':' :: rest →
      colon_with_indent state
        = .error (.noProgress, .doubleColon state.line state.column, state)) := by
  refine ⟨?_, ?_, ?_, ?_⟩
  · intro rest hbytes
    rw [equals_with_indent_help]
    simp [hbytes]
  · intro hhead
    have hng : ¬(state.bytes.head? = some '=' ∧ ¬state.bytes.take 2 = ['=', '=']) := by
      intro h1
      exact hhead h1.1
    rw [equals_with_indent_help]
    simp [hng]
  · intro result hok
    by_cases hg : state.bytes.head? = some '=' ∧ ¬state.bytes.take 2 = ['=', '=']
    · exact ⟨hg.1, hg.2⟩
    · rw [equals_with_indent_help] at hok
      simp [hg] at hok
  · intro rest hbytes
    rw [colon_with_indent]
    simp [hbytes]

/-- Witness for C10 at concrete states: a double equals, a colon head, a
successful single equals, and a double colon. -/
theorem equals_colon_rejections_witness :
    equals_with_indent_help ⟨['=', '=', ' '], 2, 4, 0⟩
      = .error (.noProgress, .equalsErr 2 4, ⟨['=', '=', ' '], 2, 4, 0⟩)
  ∧ equals_with_indent_help ⟨[':', ' '], 2, 4, 0⟩
      = .error (.noProgress, .equalsErr 2 4, ⟨[':', ' '], 2, 4, 0⟩)
  ∧ ((⟨['=', ' '], 2, 4, 0⟩ : PState).bytes.head? = some '='
      ∧ (⟨['=', ' '], 2, 4, 0⟩ : PState).bytes.take 2 ≠ ['=', '='])
  ∧ colon_with_indent ⟨[':', ':', ' '], 2, 4, 0⟩
      = .error (.noProgress, .doubleColon 2 4, ⟨[':', ':', ' '], 2, 4, 0⟩) :=
  ⟨(equals_colon_rejections ⟨['=', '=', ' '], 2, 4, 0⟩).1 [' '] rfl,
   (equals_colon_rejections ⟨[':', ' '], 2, 4, 0⟩).2.1 (by decide),
   (equals_colon_rejections ⟨['=', ' '], 2, 4, 0⟩).2.2.1 (0, ⟨[' '], 2, 5, 0⟩) rfl,
   (equals_colon_rejections ⟨[':', ':', ' '], 2, 4, 0⟩).2.2.2 [' '] rfl⟩

/-- C1: for every expression of the shape of a term, a juxtaposed argument
and then an infix operator with a right operand, the chain engine folds the
accumulated arguments into a single Apply node and only then records the
operator, so the result is the operator applied to the call: application
binds tighter than every infix operator. -/
theorem application_binds_tighter (rf ra rb : Region) (f a b : Expr)
    (op : BinOp) (h1 : op ≠ .assignment) (h2 : op ≠ .hasType) :
    chain_result_value (parse_expr_operator_chain ⟨rf, f⟩
        [.term ⟨ra, a⟩, .op op true true, .term ⟨rb, b⟩])
      = some (.binOp (.apply f [a] .space) op b) := by
  cases op <;>
    first
    | exact absurd rfl h1
    | exact absurd rfl h2
    | simp [parse_expr_operator_chain, parse_expr_end, parse_expr_operator,
        to_call, parse_expr_final, chain_result_value]

/-- Witness for C1 at concrete input: f applied to a, then plus b. -/
theorem application_binds_tighter_witness :
    chain_result_value (parse_expr_operator_chain ⟨⟨0, 0, 0, 1⟩, .var "" "f"⟩
        [.term ⟨⟨0, 2, 0, 3⟩, .var "" "a"⟩, .op .plus true true,
         .term ⟨⟨0, 6, 0, 7⟩, .var "" "b"⟩])
      = some (.binOp (.apply (.var "" "f") [.var "" "a"] .space) .plus (.var "" "b")) :=
  application_binds_tighter ⟨0, 0, 0, 1⟩ ⟨0, 2, 0, 3⟩ ⟨0, 6, 0, 7⟩
    (.var "" "f") (.var "" "a") (.var "" "b") .plus
    (by decide) (by decide)

/-- The run of a terminated chain trace, one state-machine step per
operator: fold the pending arguments into a call, push it with the
operator, restart from the right operand. -/
def chain_run (s : ExprState) : List (BinOp × Loc) → Loc
  | [] => parse_expr_final s
  | (op, t) :: rest =>
    chain_run
      { operators := s.operators ++ [(to_call s.arguments s.expr, op)]
        arguments := []
        expr := t } rest

/-- Value-level operator fold: the reversed operator stack wrapped around a
terminal expression. -/
def apply_ops_value (ops : List (Expr × BinOp)) (e : Expr) : Expr :=
  ops.reverse.foldl (fun acc p => .binOp p.1 p.2 acc) e

/-- The located operator fold of parse_expr_final projects to the
value-level fold. -/
theorem foldl_binop_value (l : List (Loc × BinOp)) (e : Loc) :
    (l.foldl
      (fun e p =>
        ({ region := Region.span_across p.1.region e.region
           value := .binOp p.1.value p.2 e.value } : Loc)) e).value
      = (l.map (fun p => (p.1.value, p.2))).foldl
          (fun acc p => .binOp p.1 p.2 acc) e.value := by
  induction l generalizing e with
  | nil => rfl
  | cons p l ih => simp [List.foldl_cons, ih]

/-- parse_expr_final at the value level. -/
theorem parse_expr_final_value (s : ExprState) :
    (parse_expr_final s).value
      = apply_ops_value (s.operators.map (fun p => (p.1.value, p.2)))
          (to_call s.arguments s.expr).value := by
  rw [parse_expr_final, apply_ops_value, foldl_binop_value, List.map_reverse]

/-- Appending one operator to the stack wraps the terminal expression once
more, innermost. -/
theorem apply_ops_value_append (ops : List (Expr × BinOp)) (y : Expr × BinOp)
    (e : Expr) :
    apply_ops_value (ops ++ [y]) e = apply_ops_value ops (.binOp y.1 y.2 e) := by
  simp [apply_ops_value, List.reverse_append]

/-- On a terminated chain trace the engine takes exactly the chain_run
steps, provided no operator is the equals or colon that would divert into
definition parsing. -/
theorem parse_expr_end_chain_items (pairs : List (BinOp × Loc)) (s : ExprState)
    (h : ∀ p ∈ pairs, p.1 ≠ BinOp.assignment ∧ p.1 ≠ BinOp.hasType) :
    parse_expr_end s (chain_items pairs) = .ok (.expr (chain_run s pairs)) := by
  induction pairs generalizing s with
  | nil => simp [chain_items, parse_expr_end, chain_run]
  | cons p rest ih =>
    obtain ⟨op, t⟩ := p
    have h1 : op ≠ BinOp.assignment := (h (op, t) (List.mem_cons_self _ _)).1
    have h2 : op ≠ BinOp.hasType := (h (op, t) (List.mem_cons_self _ _)).2
    have hrest : ∀ p ∈ rest, p.1 ≠ BinOp.assignment ∧ p.1 ≠ BinOp.hasType :=
      fun p hp => h p (List.mem_cons_of_mem _ hp)
    rw [chain_items, parse_expr_end, chain_run]
    cases op <;>
      first
      | exact absurd rfl h1
      | exact absurd rfl h2
      | simp [parse_expr_operator, ih _ hrest]

/-- chain_run computes the right fold of the spec around the initial call,
below the operators already on the stack. -/
theorem chain_run_value (pairs : List (BinOp × Loc)) (s : ExprState) :
    (chain_run s pairs).value
      = apply_ops_value (s.operators.map (fun p => (p.1.value, p.2)))
          (spec_right_fold (to_call s.arguments s.expr).value
            (pairs.map (fun p => (p.1, p.2.value)))) := by
  induction pairs generalizing s with
  | nil => simp [chain_run, spec_right_fold, parse_expr_final_value]
  | cons p rest ih =>
    obtain ⟨op, t⟩ := p
    rw [chain_run, ih]
    simp only [List.map_append, List.map_cons, List.map_nil]
    rw [apply_ops_value_append]
    simp [to_call, spec_right_fold]

/-- C2: a terminated operator chain of operators and operand terms folds
into the right-nested binary tree built strictly in encounter order, with
no relative precedence between different operators; the terminal term
binds tightest. -/
theorem operator_chain_right_fold (t0 : Loc) (pairs : List (BinOp × Loc))
    (h : ∀ p ∈ pairs, p.1 ≠ BinOp.assignment ∧ p.1 ≠ BinOp.hasType) :
    chain_result_value (parse_expr_operator_chain t0 (chain_items pairs))
      = some (spec_right_fold t0.value (pairs.map (fun p => (p.1, p.2.value)))) := by
  rw [parse_expr_operator_chain, parse_expr_end_chain_items pairs _ h]
  rw [chain_result_value, chain_run_value]
  simp [apply_ops_value, to_call]

/-- Witness for C2 at concrete input: a plus b star c right-folds to
a plus (b star c). -/
theorem operator_chain_right_fold_witness :
    chain_result_value (parse_expr_operator_chain ⟨⟨0, 0, 0, 1⟩, .var "" "a"⟩
        (chain_items
          [(.plus, ⟨⟨0, 4, 0, 5⟩, .var "" "b"⟩),
           (.star, ⟨⟨0, 8, 0, 9⟩, .var "" "c"⟩)]))
      = some (.binOp (.var "" "a") .plus (.binOp (.var "" "b") .star (.var "" "c"))) :=
  operator_chain_right_fold ⟨⟨0, 0, 0, 1⟩, .var "" "a"⟩
    [(.plus, ⟨⟨0, 4, 0, 5⟩, .var "" "b"⟩), (.star, ⟨⟨0, 8, 0, 9⟩, .var "" "c"⟩)]
    (by intro p hp; fin_cases hp <;> exact ⟨by decide, by decide⟩)

/-- C5 counterexample: the merge does not compare the annotation pattern
with the body pattern.  An annotation for x directly followed by a body for
the distinct name y is still merged into one annotated-body definition, so
the merge does not happen exactly when the two definitions concern the
same pattern. -/
theorem append_body_definition_merges_distinct_patterns :
    append_body_definition [.annDef (.identifier "x") (.mk "Int")] [.newline]
        (.identifier "y") (.num "5")
      = [.annotatedBody (.identifier "x") (.mk "Int") none
          (.identifier "y") (.num "5")]
  ∧ ("x" : String) ≠ "y" :=
  ⟨rfl, by decide⟩

/-- C5 as amended: two consecutive definitions are merged into a single
annotated-body definition exactly when the first is a bare (unwrapped)
type annotation and the separating space list has at most one element (one
newline or one comment); the body pattern is not compared with the
annotation pattern.  With a longer separation the two stay independent,
and a comment sitting directly between annotation and body is captured
onto the merged node rather than discarded. -/
theorem append_body_definition_merge (defs : List Def) (ann_pattern : Pattern)
    (ann_type : TypeAnn) (spaces : List CommentOrNewline)
    (loc_pattern : Pattern) (loc_def_body : Expr) :
    (spaces.length ≤ 1 →
      append_body_definition (defs ++ [.annDef ann_pattern ann_type]) spaces
          loc_pattern loc_def_body
        = defs ++ [.annotatedBody ann_pattern ann_type
            (comment_from_spaces spaces) loc_pattern loc_def_body])
  ∧ (1 < spaces.length →
      append_body_definition (defs ++ [.annDef ann_pattern ann_type]) spaces
          loc_pattern loc_def_body
        = defs ++ [.annDef ann_pattern ann_type,
            .spaceBefore (.body loc_pattern loc_def_body) spaces])
  ∧ (∀ p e, spaces.length ≤ 1 →
      append_body_definition (defs ++ [.body p e]) spaces
          loc_pattern loc_def_body
        = defs ++ [.body p e,
            if spaces.isEmpty then .body loc_pattern loc_def_body
            else .spaceBefore (.body loc_pattern loc_def_body) spaces])
  ∧ (∀ c, comment_from_spaces [.lineComment c] = some c)
  ∧ (∀ c, comment_from_spaces [.docComment c] = some c)
  ∧ comment_from_spaces [.newline] = none
  ∧ comment_from_spaces [] = none := by
  refine ⟨?_, ?_, ?_, ?_, ?_, rfl, rfl⟩
  · intro hlen
    rw [append_body_definition]
    simp [hlen, List.getLast?_concat]
  · intro hlen
    have hne : ¬spaces.isEmpty := by
      cases spaces <;> simp_all
    rw [append_body_definition]
    simp [Nat.not_le.mpr hlen, push_body_definition, hne]
  · intro p e hlen
    rw [append_body_definition]
    simp [hlen, List.getLast?_concat, push_body_definition]
  · intro c
    rfl
  · intro c
    rfl

/-- Witness for C5 as amended at concrete inputs. -/
theorem append_body_definition_merge_witness :
    append_body_definition [.annDef (.identifier "x") (.mk "Int")]
        [.lineComment "c"] (.identifier "x") (.num "5")
      = [.annotatedBody (.identifier "x") (.mk "Int") (some "c")
          (.identifier "x") (.num "5")]
  ∧ append_body_definition [.annDef (.identifier "x") (.mk "Int")]
        [.newline, .newline] (.identifier "x") (.num "5")
      = [.annDef (.identifier "x") (.mk "Int"),
          .spaceBefore (.body (.identifier "x") (.num "5")) [.newline, .newline]] := by
  constructor
  · have h := (append_body_definition_merge [] (.identifier "x") (.mk "Int")
      [.lineComment "c"] (.identifier "x") (.num "5")).1 (by decide)
    simpa using h
  · have h := (append_body_definition_merge [] (.identifier "x") (.mk "Int")
      [.newline, .newline] (.identifier "x") (.num "5")).2.1 (by decide)
    simpa using h

/-- C6 counterexample: a subsequent branch whose first pattern sits one
column to the right of the reference column fails with a pattern-alignment
error carrying the wrapped 16-bit difference 65535, not the column delta 1:
the error payload does not always equal the delta between the two columns. -/
theorem alternatives_alignment_wraps :
    alternatives_indented_correctly 3 [] 2 = .error 65535
  ∧ (65535 : Nat) ≠ 3 - 2 :=
  ⟨rfl, by decide⟩

/-- C6 as amended: the first branch of a when establishes the reference
column; a subsequent branch succeeds exactly when its first pattern sits at
that column and its further alternatives at or right of it; a misaligned
pattern fails with a pattern-alignment error carrying the wrapping 16-bit
difference of reference column minus pattern column, which equals the
exact column delta whenever the offending pattern sits left of the
reference column. -/
theorem alternatives_alignment (first : Nat) (rest : List Nat)
    (original_indent : Nat) :
    (alternatives_indented_correctly first rest original_indent = .ok ()
      ↔ first = original_indent ∧ ∀ col ∈ rest, original_indent ≤ col)
  ∧ (first < original_indent → original_indent < 65536 →
      alternatives_indented_correctly first rest original_indent
        = .error (original_indent - first))
  ∧ (first = original_indent → original_indent < 65536 →
      ∀ pre col post, rest = pre ++ col :: post →
        (∀ d ∈ pre, original_indent ≤ d) → col < original_indent →
        alternatives_indented_correctly first rest original_indent
          = .error (original_indent - col))
  ∧ (∀ fb rbs, branches_alignment fb rbs = check_rest_branches fb.1 rbs) := by
  refine ⟨?_, ?_, ?_, fun fb rbs => rfl⟩
  · rw [alternatives_indented_correctly]
    by_cases hf : first = original_indent
    · simp only [hf, if_pos rfl]
      cases hfind : List.find? (fun col => col < original_indent) rest with
      | none =>
        rw [List.find?_eq_none] at hfind
        simp only [true_and]
        constructor
        · intro _ col hcol
          exact Nat.not_lt.mp (by simpa using hfind col hcol)
        · intro _
          rfl
      | some col =>
        have hlt : col < original_indent := by simpa using List.find?_some hfind
        have hmem := List.mem_of_find?_eq_some hfind
        constructor
        · intro hcon
          exact absurd hcon (by simp)
        · intro hall
          exact absurd (hall.2 col hmem) (Nat.not_le.mpr hlt)
    · simp only [if_neg hf]
      constructor
      · intro hcon
        exact absurd hcon (by simp)
      · intro hall
        exact absurd hall.1 hf
  · intro hlt hbound
    rw [alternatives_indented_correctly]
    rw [if_neg (Nat.ne_of_lt hlt)]
    have : sub16 original_indent first = original_indent - first := by
      rw [sub16]
      omega
    rw [this]
  · intro hf hbound pre col post hrest hpre hcol
    rw [alternatives_indented_correctly, if_pos hf]
    have hfind : List.find? (fun c => c < original_indent) rest = some col := by
      rw [hrest, List.find?_append]
      have hnone : List.find? (fun c => c < original_indent) pre = none := by
        rw [List.find?_eq_none]
        intro d hd
        simpa using Nat.not_lt.mpr (hpre d hd)
      rw [hnone]
      simp [List.find?_cons, hcol]
    simp only [hfind]
    have hsub : sub16 original_indent col = original_indent - col := by
      rw [sub16]
      omega
    rw [hsub]

/-- Witness for C6 as amended at concrete inputs: an aligned branch with
alternatives at or right of the column succeeds, and an under-indented
branch reports the exact delta. -/
theorem alternatives_alignment_witness :
    (alternatives_indented_correctly 4 [4, 6] 4 = .ok ()
      ↔ (4 : Nat) = 4 ∧ ∀ col ∈ [4, 6], 4 ≤ col)
  ∧ alternatives_indented_correctly 2 [] 4 = .error 2
  ∧ alternatives_indented_correctly 4 [5, 1] 4 = .error 3 :=
  ⟨(alternatives_alignment 4 [4, 6] 4).1,
   (alternatives_alignment 2 [] 4).2.1 (by decide) (by decide),
   (alternatives_alignment 4 [5, 1] 4).2.2.1 rfl (by decide) [5] 1 []
     rfl (by decide) (by decide)⟩

/-- C8: when an equals sign is reached at operator position, a chain that
already recorded an infix operator fails with the bad-operator error for
the equals sign; a chain whose left side carries juxtaposed arguments
fails with the Elm-style-function error covering the region across those
arguments; and a record literal followed by equals reinterprets its
label-only fields into a record-destructure pattern binding those names,
which heads the body definition of the resulting definitions block. -/
theorem equals_at_operator_position :
    (∀ (s : ExprState) (gb ga : Bool) (rest : List ChainItem),
      s.operators ≠ [] →
      parse_expr_operator s .assignment gb ga rest = .error (.badOperator "="))
  ∧ (∀ (s : ExprState) (gb ga : Bool) (rest : List ChainItem),
      s.operators = [] → s.arguments ≠ [] →
      parse_expr_operator s .assignment gb ga rest
        = .error (.elmStyleFunction
            (Region.across_all (s.arguments.map Loc.region))))
  ∧ record_destructure_def_pattern [.labelOnly "x", .labelOnly "y"] []
      = some (.recordDestructure [.identifier "x", .identifier "y"])
  ∧ (∀ body defs ret,
      parse_def_expr_result
          (.recordDestructure [.identifier "x", .identifier "y"]) body defs ret
        = .defs (.body (.recordDestructure [.identifier "x", .identifier "y"])
            body :: defs) ret) := by
  refine ⟨?_, ?_, rfl, fun body defs ret => rfl⟩
  · intro s gb ga rest hops
    have hisEmpty : s.operators.isEmpty = false := by
      cases hops2 : s.operators <;> simp_all
    rw [parse_expr_operator.eq_def, if_neg (by simp)]
    simp [hisEmpty]
  · intro s gb ga rest hops hargs
    have hisEmpty : s.operators.isEmpty = true := by simp [hops]
    have hargsEmpty : s.arguments.isEmpty = false := by
      cases hargs2 : s.arguments <;> simp_all
    rw [parse_expr_operator.eq_def, if_neg (by simp)]
    simp [hisEmpty, hargsEmpty]

/-- Witness for C8 at concrete inputs: one prior operator forces the
bad-operator failure, and pending arguments force the Elm-style failure
with the span across the argument regions. -/
theorem equals_at_operator_position_witness :
    parse_expr_operator
        ⟨[(⟨⟨0, 0, 0, 1⟩, .num "1"⟩, .plus)], [], ⟨⟨0, 4, 0, 5⟩, .num "2"⟩⟩
        .assignment true true []
      = .error (.badOperator "=")
  ∧ parse_expr_operator
        ⟨[], [⟨⟨0, 2, 0, 3⟩, .var "" "a"⟩, ⟨⟨0, 4, 0, 5⟩, .var "" "b"⟩],
         ⟨⟨0, 0, 0, 1⟩, .var "" "f"⟩⟩
        .assignment true true []
      = .error (.elmStyleFunction ⟨0, 2, 0, 5⟩) := by
  constructor
  · exact (equals_at_operator_position).1
      ⟨[(⟨⟨0, 0, 0, 1⟩, .num "1"⟩, .plus)], [], ⟨⟨0, 4, 0, 5⟩, .num "2"⟩⟩
      true true [] (by simp)
  · have h := (equals_at_operator_position).2.1
      ⟨[], [⟨⟨0, 2, 0, 3⟩, .var "" "a"⟩, ⟨⟨0, 4, 0, 5⟩, .var "" "b"⟩],
       ⟨⟨0, 0, 0, 1⟩, .var "" "f"⟩⟩
      true true [] rfl (by simp)
    exact h

end RocParse
